import Mathlib

/-!
Verification of the TradeTrackerWeb ingestion/normalization/reconciliation
pipeline. The server code (two paste-parsing and two workbook-upload handlers)
and the client-side reconciliation aggregator are embedded shallowly:
JavaScript numbers are modelled as exact rationals (`Rat`), strings as Lean
strings processed through their character lists, raw cells as a string/number
sum type, and each handler as a pure function from its decoded input to the
success/failure result it serialises.
-/

namespace TradeTrack

/-! ## Kernel-computable rational arithmetic

The Batteries implementations of `Rat.add`, `Rat.sub`, `Rat.mul` and `Rat.inv`
are `@[irreducible]`, so concrete pipeline runs could not be checked with
`decide` through them.  We therefore use equivalent `mkRat`-based operations
(proved equal to the standard ones below) inside all embedded definitions. -/

def radd (a b : Rat) : Rat := mkRat (a.num * b.den + b.num * a.den) (a.den * b.den)

def rsub (a b : Rat) : Rat := mkRat (a.num * b.den - b.num * a.den) (a.den * b.den)

def rmul (a b : Rat) : Rat := mkRat (a.num * b.num) (a.den * b.den)

/-- Division of a rational by a natural number (the only shape of division the
source performs: `/60`, `/3600`, `/24`, `/100`, powers of ten). -/
def divNat (a : Rat) (n : Nat) : Rat := mkRat a.num (a.den * n)

/-- JavaScript `Math.round`: round half toward positive infinity. -/
def jsRound (q : Rat) : Int := Rat.floor (radd q (mkRat 1 2))

/-- The source's `Math.round(x * 100) / 100` (round to 2 decimal places). -/
def round2 (q : Rat) : Rat := divNat ((jsRound (rmul q 100) : Int) : Rat) 100

/-- Truncation toward zero, as JavaScript `%` and `Date` time-value clipping use. -/
def jsTrunc (q : Rat) : Int := if q < 0 then -(Rat.floor (-q)) else Rat.floor q

/-- JavaScript `x % 1` for a number `x` (remainder with truncated division). -/
def jsMod1 (q : Rat) : Rat := rsub q ((jsTrunc q : Int) : Rat)

/-! ## Characters and strings

All string processing is done on `List Char` (`String.data`), with ASCII-exact
models of the JavaScript operations the source uses (`trim`, `toUpperCase`,
`toLowerCase`, `split`, `includes`). -/

def tabC : Char := Char.ofNat 9

def nlC : Char := Char.ofNat 10

def crC : Char := Char.ofNat 13

def commaC : Char := Char.ofNat 44

def colonC : Char := Char.ofNat 58

def slashC : Char := Char.ofNat 47

def dashC : Char := Char.ofNat 45

def dotC : Char := Char.ofNat 46

def digitVal (c : Char) : Nat := c.toNat - 48

/-- JavaScript whitespace (`\s`, `trim`), restricted to the ASCII part. -/
def isSpaceC (c : Char) : Bool :=
  c.toNat = 32 || c.toNat = 9 || c.toNat = 10 || c.toNat = 13 || c.toNat = 11 || c.toNat = 12

/-- ASCII upper-casing of one character (JavaScript `toUpperCase`). -/
def upChar (c : Char) : Char :=
  if 97 ≤ c.toNat && c.toNat ≤ 122 then Char.ofNat (c.toNat - 32) else c

/-- ASCII lower-casing of one character (JavaScript `toLowerCase`). -/
def lowChar (c : Char) : Char :=
  if 65 ≤ c.toNat && c.toNat ≤ 90 then Char.ofNat (c.toNat + 32) else c

def upList (cs : List Char) : List Char := cs.map upChar

def lowList (cs : List Char) : List Char := cs.map lowChar

/-- JavaScript `String.prototype.trim` on a character list. -/
def trimList (cs : List Char) : List Char :=
  ((cs.dropWhile isSpaceC).reverse.dropWhile isSpaceC).reverse

/-- Split on every character satisfying `p` (JavaScript single-character
`split`, which yields empty pieces between adjacent separators). -/
def splitAux (p : Char → Bool) : List Char → List Char → List (List Char)
  | [], acc => [acc.reverse]
  | c :: rest, acc =>
    if p c then acc.reverse :: splitAux p rest [] else splitAux p rest (c :: acc)

def splitC (p : Char → Bool) (cs : List Char) : List (List Char) := splitAux p cs []

/-- Drop one trailing carriage return, so that splitting on `nlC` models the
source's `split(/\r?\n/)`. -/
def dropCR (cs : List Char) : List Char :=
  match cs.getLast? with
  | some c => if c = crC then cs.dropLast else cs
  | none => cs

/-- The source's `text.split(/\r?\n/)`. -/
def splitLinesC (cs : List Char) : List (List Char) :=
  (splitC (fun c => c = nlC) cs).map dropCR

def isPrefixOfB : List Char → List Char → Bool
  | [], _ => true
  | _ :: _, [] => false
  | a :: as, b :: bs => a = b && isPrefixOfB as bs

/-- JavaScript `hay.includes(needle)` (substring containment). -/
def containsSub : List Char → List Char → Bool
  | hay, needle =>
    match hay with
    | [] => needle.isEmpty
    | _ :: rest => isPrefixOfB needle hay || containsSub rest needle

/-! ## Time parsing (`parseTimeString`) -/

inductive Period
  | AM
  | PM
deriving DecidableEq

/-- The AM/PM normalization applied by both `parseTimeString` variants:
PM adds 12 unless the hour is already 12, and 12 AM becomes 0. -/
def hourNormalize (h : Nat) (p : Option Period) : Nat :=
  if p = some Period.PM ∧ h ≠ 12 then h + 12
  else if p = some Period.AM ∧ h = 12 then 0
  else h

/-- The value `(hours + minutes / 60 + seconds / 3600) / 24` computed by the
source once the components of a time string are extracted. -/
def timeFromHMS (h m s : Nat) : Rat :=
  divNat (radd (radd ((h : Int) : Rat) (divNat ((m : Int) : Rat) 60)) (divNat ((s : Int) : Rat) 3600)) 24

/-- Matcher for `(AM|PM)?$`: end of input, or exactly the two uppercase
letters AM or PM and then the end. -/
def matchPeriodAnchored (cs : List Char) : Option (Option Period) :=
  match cs with
  | [] => some none
  | [c1, c2] =>
    if c1.toNat = 65 ∧ c2.toNat = 77 then some (some Period.AM)
    else if c1.toNat = 80 ∧ c2.toNat = 77 then some (some Period.PM)
    else none
  | _ => none

def skipSpaces (cs : List Char) : List Char := cs.dropWhile isSpaceC

/-- Matcher for the tail `(?::(\d{2}))?\s*(AM|PM)?$` of the anchored bare-time
regex: optional seconds, then spaces, then an optional meridiem, then the end
of the string.  This is the deterministic equivalent of the backtracking
regex: whenever a greedy piece is given back, the following mandatory
character test still fails, so no backtracking succeeds. -/
def matchTailAnchored (cs : List Char) : Option (Nat × Option Period) :=
  match cs with
  | c0 :: d1 :: d2 :: rest =>
    if c0 = colonC ∧ d1.isDigit ∧ d2.isDigit then
      (matchPeriodAnchored (skipSpaces rest)).map
        (fun p => (10 * digitVal d1 + digitVal d2, p))
    else (matchPeriodAnchored (skipSpaces cs)).map (fun p => (0, p))
  | _ => (matchPeriodAnchored (skipSpaces cs)).map (fun p => (0, p))

/-- Matcher for `:(\d{2})` followed by the anchored tail, used after the hour
of the bare-time pattern; yields (minutes, seconds, meridiem). -/
def matchMinAnchored (cs : List Char) : Option (Nat × Nat × Option Period) :=
  match cs with
  | c0 :: d1 :: d2 :: rest =>
    if c0 = colonC ∧ d1.isDigit ∧ d2.isDigit then
      (matchTailAnchored rest).map
        (fun sp => (10 * digitVal d1 + digitVal d2, sp.1, sp.2))
    else none
  | _ => none

/-- Anchored matcher for the bare-time pattern
`^(\d{1,2}):(\d{2})(?::(\d{2}))?\s*(AM|PM)?$` (applied to the trimmed,
upper-cased input).  Returns (hour, minute, second, meridiem). -/
def matchBareTime (cs : List Char) : Option (Nat × Nat × Nat × Option Period) :=
  match cs with
  | c1 :: c2 :: rest =>
    if c1.isDigit then
      if c2.isDigit then
        (matchMinAnchored rest).map (fun r => (10 * digitVal c1 + digitVal c2, r))
      else
        (matchMinAnchored (c2 :: rest)).map (fun r => (digitVal c1, r))
    else none
  | _ => none

/-! ## JavaScript `parseFloat` -/

def takeDigits : List Char → List Char × List Char
  | [] => ([], [])
  | c :: rest =>
    if c.isDigit then
      let p := takeDigits rest
      (c :: p.1, p.2)
    else ([], c :: rest)

def digitsToNat (ds : List Char) : Nat :=
  ds.foldl (fun a c => 10 * a + digitVal c) 0

/-- Exponent part of `parseFloat`: `(e|E)(+|-)?\d+`, contributing `0` when
absent or malformed (a malformed exponent is simply trailing garbage). -/
def parseFloatExp (cs : List Char) : Int :=
  match cs with
  | c :: rest =>
    if c.toNat = 101 ∨ c.toNat = 69 then
      match rest with
      | s :: rest2 =>
        if s = dashC then
          (if (takeDigits rest2).1.isEmpty then 0 else -((digitsToNat (takeDigits rest2).1 : Int)))
        else if s.toNat = 43 then
          (if (takeDigits rest2).1.isEmpty then 0 else (digitsToNat (takeDigits rest2).1 : Int))
        else
          (if (takeDigits rest).1.isEmpty then 0 else (digitsToNat (takeDigits rest).1 : Int))
      | [] => 0
    else 0
  | [] => 0

def applyExp (q : Rat) (e : Int) : Rat :=
  if 0 ≤ e then rmul q (((10 : Nat) ^ e.toNat : Nat) : Int) else divNat q ((10 : Nat) ^ (-e).toNat)

/-- JavaScript `parseFloat`: leading whitespace skipped, optional sign, decimal
digits with optional fraction, optional exponent, trailing garbage ignored;
`none` models `NaN`.  (The `Infinity` literal never arises from the source's
numeric-looking inputs and is not modelled.) -/
def jsParseFloat (s : String) : Option Rat :=
  let cs0 := s.data.dropWhile isSpaceC
  let signNeg := match cs0 with
    | c :: _ => c == dashC
    | [] => false
  let cs1 := match cs0 with
    | c :: rest => if c = dashC ∨ c.toNat = 43 then rest else cs0
    | [] => cs0
  let ip := (takeDigits cs1).1
  let r1 := (takeDigits cs1).2
  let fp := match r1 with
    | c :: rest => if c = dotC then (takeDigits rest).1 else []
    | [] => []
  let r2 := match r1 with
    | c :: rest => if c = dotC then (takeDigits rest).2 else r1
    | [] => r1
  if ip.isEmpty ∧ fp.isEmpty then none
  else
    let mant := radd (((digitsToNat ip : Int) : Rat))
      (divNat ((digitsToNat fp : Int) : Rat) ((10 : Nat) ^ fp.length))
    let v := applyExp mant (parseFloatExp r2)
    some (if signNeg then -v else v)

/-! ## The two `parseTimeString` variants -/

/-- The trimmed, upper-cased character list both variants match against. -/
def processedTime (s : String) : List Char := upList (trimList s.data)

/-- The `parseTimeString` of the header-matching (fuzzy) route file and of
`src/server/routes.ts`: bare-time pattern, else decimal in [0,1], else the
invalid-time sentinel `-1`. -/
def parseTimeString (timeStr : String) : Rat :=
  if (trimList timeStr.data).isEmpty then -1
  else
    match matchBareTime (processedTime timeStr) with
    | some (h, m, s, p) =>
      if h > 23 ∨ m > 59 ∨ s > 59 then -1
      else timeFromHMS (hourNormalize h p) m s
    | none =>
      match jsParseFloat (String.mk (processedTime timeStr)) with
      | some q => if 0 ≤ q ∧ q ≤ 1 then q else -1
      | none => -1

/-- Matcher for `(AM|PM)?` with no end anchor (the datetime regex has no `$`). -/
def periodLoose (cs : List Char) : Option Period :=
  match cs with
  | c1 :: c2 :: _ =>
    if c1.toNat = 65 ∧ c2.toNat = 77 then some Period.AM
    else if c1.toNat = 80 ∧ c2.toNat = 77 then some Period.PM
    else none
  | _ => none

/-- Tail `(?::(\d{2}))?\s*(AM|PM)?` of the datetime regex; with no anchor this
always succeeds once the minutes have matched. -/
def matchDTTail (cs : List Char) : Nat × Option Period :=
  match cs with
  | c0 :: d1 :: d2 :: rest =>
    if c0 = colonC ∧ d1.isDigit ∧ d2.isDigit then
      (10 * digitVal d1 + digitVal d2, periodLoose (skipSpaces rest))
    else (0, periodLoose (skipSpaces cs))
  | _ => (0, periodLoose (skipSpaces cs))

def matchDTMin (h : Nat) (cs : List Char) : Option (Nat × Nat × Nat × Option Period) :=
  match cs with
  | c0 :: d1 :: d2 :: rest =>
    if c0 = colonC ∧ d1.isDigit ∧ d2.isDigit then
      some (h, 10 * digitVal d1 + digitVal d2, (matchDTTail rest).1, (matchDTTail rest).2)
    else none
  | _ => none

def matchDTHour (cs : List Char) : Option (Nat × Nat × Nat × Option Period) :=
  match cs with
  | c1 :: c2 :: rest =>
    if c1.isDigit then
      if c2.isDigit then matchDTMin (10 * digitVal c1 + digitVal c2) rest
      else matchDTMin (digitVal c1) (c2 :: rest)
    else none
  | _ => none

/-- One `\d+[\/\-]` step of the datetime regex: a maximal nonempty digit run
followed by a slash or dash (deterministic: shorter digit runs would leave a
digit where the separator is required). -/
def afterDigitsSep (cs : List Char) : Option (List Char) :=
  match takeDigits cs with
  | ([], _) => none
  | (_ :: _, rest) =>
    match rest with
    | c :: r => if c = slashC ∨ c = dashC then some r else none
    | [] => none

/-- Attempt of `\d+[\/\-]\d+[\/\-]\d+\s+(\d{1,2}):(\d{2})(?::(\d{2}))?\s*(AM|PM)?`
anchored at the head of `cs`. -/
def matchDateTimeAt (cs : List Char) : Option (Nat × Nat × Nat × Option Period) := do
  let r1 ← afterDigitsSep cs
  let r2 ← afterDigitsSep r1
  match takeDigits r2 with
  | ([], _) => none
  | (_ :: _, r3) =>
    match r3 with
    | c :: r4 =>
      if isSpaceC c then matchDTHour (skipSpaces r4) else none
    | [] => none

/-- Leftmost search of the datetime pattern, as the unanchored
`str.match(...)` performs. -/
def searchDateTime : List Char → Option (Nat × Nat × Nat × Option Period)
  | [] => none
  | c :: rest =>
    match matchDateTimeAt (c :: rest) with
    | some r => some r
    | none => searchDateTime rest

/-- The `parseTimeString` of the fixed-index route file: it first searches for
a datetime pattern (extracting only the time portion, without range
validation), then the bare-time pattern, then a decimal in [0,1]. -/
def parseTimeStringDT (timeStr : String) : Rat :=
  if (trimList timeStr.data).isEmpty then -1
  else
    match searchDateTime (processedTime timeStr) with
    | some (h, m, s, p) => timeFromHMS (hourNormalize h p) m s
    | none =>
      match matchBareTime (processedTime timeStr) with
      | some (h, m, s, p) =>
        if h > 23 ∨ m > 59 ∨ s > 59 then -1
        else timeFromHMS (hourNormalize h p) m s
      | none =>
        match jsParseFloat (String.mk (processedTime timeStr)) with
        | some q => if 0 ≤ q ∧ q ≤ 1 then q else -1
        | none => -1

/-! ## Calendar dates

Proleptic-Gregorian day counts relative to 1970-01-01 (the arithmetic behind
the JavaScript `Date` object in the UTC timezone, which the deployment
assumes: `new Date(y, m, d)` then equals `Date.UTC(y, m, d)`). -/

def daysFromCivil (y : Int) (m d : Nat) : Int :=
  let y2 : Int := if m ≤ 2 then y - 1 else y
  let era : Int := (if 0 ≤ y2 then y2 else y2 - 399) / 400
  let yoe : Int := y2 - era * 400
  let mp : Int := ((m : Int) + 9) % 12
  let doy : Int := (153 * mp + 2) / 5 + (d : Int) - 1
  let doe : Int := yoe * 365 + yoe / 4 - yoe / 100 + doy
  era * 146097 + doe - 719468

def civilFromDays (z0 : Int) : Int × Nat × Nat :=
  let z : Int := z0 + 719468
  let era : Int := (if 0 ≤ z then z else z - 146096) / 146097
  let doe : Int := z - era * 146097
  let yoe : Int := (doe - doe / 1460 + doe / 36524 - doe / 146096) / 365
  let y : Int := yoe + era * 400
  let doy : Int := doe - (365 * yoe + yoe / 4 - yoe / 100)
  let mp : Int := (5 * doy + 2) / 153
  let d : Int := doy - (153 * mp + 2) / 5 + 1
  let m : Int := if mp < 10 then mp + 3 else mp - 9
  ((if m ≤ 2 then y + 1 else y), m.toNat, d.toNat)

def natDigitsAux : Nat → Nat → List Char → List Char
  | 0, _, acc => acc
  | _ + 1, 0, acc => acc
  | fuel + 1, n + 1, acc =>
    natDigitsAux fuel ((n + 1) / 10) (Char.ofNat (48 + (n + 1) % 10) :: acc)

def natToStr (n : Nat) : String :=
  if n = 0 then "0" else String.mk (natDigitsAux (n + 1) n [])

def pad2 (n : Nat) : String := if n < 10 then "0" ++ natToStr n else natToStr n

def pad4 (n : Nat) : String :=
  (if n < 10 then "000" else if n < 100 then "00" else if n < 1000 then "0" else "") ++ natToStr n

/-- The calendar-date part of `Date.prototype.toISOString` for a UTC day
number: `YYYY-MM-DD`. -/
def isoDate (z : Int) : String :=
  pad4 (civilFromDays z).1.toNat ++ "-" ++ pad2 (civilFromDays z).2.1 ++ "-" ++ pad2 (civilFromDays z).2.2

def isLeap (y : Int) : Bool := (y % 4 = 0 ∧ y % 100 ≠ 0) ∨ y % 400 = 0

def daysInMonth (y : Int) (m : Nat) : Nat :=
  if m = 2 then (if isLeap y then 29 else 28)
  else if m = 4 ∨ m = 6 ∨ m = 9 ∨ m = 11 then 30
  else 31

/-- Modelled from the spec: the external `new Date(string)` parser used by the
source's Date Normalizer ("attempt generic calendar parsing") is a runtime
builtin not present in the repository.  It is modelled for the two calendar
forms the data uses — ISO `YYYY-MM-DD` and US `M/D/YYYY`, both giving midnight
of that date (local = UTC) — any other text is treated as unparseable. -/
def jsDateParse (s : String) : Option Int :=
  match s.data with
  | [y1, y2, y3, y4, s1, m1, m2, s2, d1, d2] =>
    if y1.isDigit ∧ y2.isDigit ∧ y3.isDigit ∧ y4.isDigit ∧ s1 = dashC ∧
        m1.isDigit ∧ m2.isDigit ∧ s2 = dashC ∧ d1.isDigit ∧ d2.isDigit then
      let y : Int := (digitsToNat [y1, y2, y3, y4] : Int)
      let m := digitsToNat [m1, m2]
      let d := digitsToNat [d1, d2]
      if 1 ≤ m ∧ m ≤ 12 ∧ 1 ≤ d ∧ d ≤ daysInMonth y m then
        some (daysFromCivil y m d)
      else none
    else none
  | cs =>
    match takeDigits cs with
    | ([], _) => none
    | (mds, r1) =>
      if mds.length ≤ 2 then
        match r1 with
        | c1 :: r2 =>
          if c1 = slashC then
            match takeDigits r2 with
            | ([], _) => none
            | (dds, r3) =>
              if dds.length ≤ 2 then
                match r3 with
                | c2 :: r4 =>
                  if c2 = slashC then
                    match takeDigits r4 with
                    | (yds, []) =>
                      if yds.length = 4 then
                        let y : Int := (digitsToNat yds : Int)
                        let m := digitsToNat mds
                        let d := digitsToNat dds
                        if 1 ≤ m ∧ m ≤ 12 ∧ 1 ≤ d ∧ d ≤ daysInMonth y m then
                          some (daysFromCivil y m d)
                        else none
                      else none
                    | _ => none
                  else none
                | [] => none
              else none
          else none
        | [] => none
      else none

/-! ## Raw cells and the Date Normalizer -/

/-- A raw cell value as the decoded workbook / split text supplies it:
JavaScript string or number. -/
inductive CellVal
  | str (s : String)
  | num (q : Rat)
deriving DecidableEq

def excelEpochDays : Int := daysFromCivil 1899 12 30

/-- Modelled from the spec: JavaScript number-to-string conversion
(`String(v)`), exact for integral values; the embedded scenarios never
stringify a non-integral number, for which a placeholder is returned. -/
def jsNumToString (q : Rat) : String :=
  if q.den = 1 then
    (if q.num < 0 then "-" ++ natToStr (-q.num).toNat else natToStr q.num.toNat)
  else "0." ++ natToStr q.num.natAbs

/-- JavaScript `String(v)` on a raw cell. -/
def jsCellString (v : CellVal) : String :=
  match v with
  | .str s => s
  | .num q => jsNumToString q

/-- The source's `parseDate`: strings through the generic date parser (with
soft pass-through on failure), numbers through the 1899-12-30 spreadsheet
serial epoch, falsy input (empty string, zero) to the empty string. -/
def parseDate (v : CellVal) : String :=
  match v with
  | .str s =>
    if s = "" then ""
    else
      match jsDateParse s with
      | some z => isoDate z
      | none => s
  | .num q =>
    if q = 0 then ""
    else isoDate (Int.fdiv (jsTrunc (radd ((excelEpochDays * 86400000 : Int) : Rat) (rmul q 86400000))) 86400000)

/-! ## The Duration Calculator (`calculateHoursFromTimes`) -/

/-- One raw time cell turned into a fraction of a day: numbers are taken
modulo 1 (dropping any date serial), strings go through the time parser with
`-1` (= `none` here) signalling failure. -/
def cellToDecimal (tp : String → Rat) (v : CellVal) : Option Rat :=
  match v with
  | .num q => some (jsMod1 q)
  | .str s =>
    if tp s = -1 then none else some (tp s)

/-- `calculateHoursFromTimes`, parameterised by the `parseTimeString` in scope
in its file: missing/empty inputs and parse failures give 0; otherwise
`(end − start) × 24`, plus 24 if negative, clamped to at most 24.  `none`
models a `null`/`undefined` argument. -/
def calcHoursWith (tp : String → Rat) (s e : Option CellVal) : Rat :=
  if s = none ∨ s = some (CellVal.str "") ∨ e = none ∨ e = some (CellVal.str "") then 0
  else
    match s, e with
    | some sv, some ev =>
      match cellToDecimal tp sv, cellToDecimal tp ev with
      | some sd, some ed =>
        let d := rmul (rsub ed sd) 24
        let d2 := if d < 0 then radd d 24 else d
        if d2 > 24 then 24 else d2
      | _, _ => 0
    | _, _ => 0

/-- The `calculateHoursFromTimes` of the fixed-index route file (its
`parseTimeString` has the datetime-extraction branch). -/
def calculateHoursFromTimes (s e : Option CellVal) : Rat :=
  calcHoursWith parseTimeStringDT s e

/-- The `calculateHoursFromTimes` of the header-matching route file and of
`src/server/routes.ts`. -/
def calculateHoursFromTimesFz (s e : Option CellVal) : Rat :=
  calcHoursWith parseTimeString s e

/-! ## Data model -/

/-- A normalized trade record.  The opaque generated `id` (a fresh UUID per
record, never inspected by any logic) is omitted from the embedding. -/
structure Trade where
  person1 : String
  date : String
  hours : Rat
  person2 : String
deriving DecidableEq

structure PersonSummary where
  name : String
  youWorked : Rat
  theyWorked : Rat
  total : Rat
deriving DecidableEq

/-- The shared output contract of every handler: success with the trade list
and a message, or failure with a message. -/
inductive ParseResult
  | ok (trades : List Trade) (message : String)
  | err (message : String)
deriving DecidableEq

def msgNoData : String := "No data provided. Please paste your Excel data."

def msgNoRowsFound : String := "No data rows found in pasted text."

def msgNoValidFixedPaste : String := "No valid trade data found. Please ensure you paste data with columns E (Person 1), F (Date), G (Start Time), H (End Time), and K (Person 2)"

def msgNoValidFixedGrid : String := "No valid trade data found. Please ensure your Excel file has data in columns E (Person 1), F (Date), G (Start Time), H (End Time), and K (Person 2)"

def msgNoValidFuzzyPaste : String := "No valid trade data found. Please check that your data includes Person 1, Trade Date, Person 2, and valid time information."

def msgNoValidFuzzyGrid : String := "No valid trade data found. Please ensure your Excel file has columns: Person 1, Trade Date, Trade Start Time, Trade End Time, Person 2"

def msgMissingCols : String := "Could not find required columns. Please ensure your data has headers: Person 1, Trade Date, Person 2, and either Trade Start Time/End Time or Hours."

def msgNoDataFile : String := "No data found in Excel file"

def successMsg (n : Nat) : String := "Successfully loaded " ++ natToStr n ++ " trades"

/-! ## Column resolution -/

def person1Syns : List String := ["person 1", "person1", "name1", "employee1", "from", "employee"]

def person2Syns : List String := ["person 2", "person2", "name2", "employee2", "to", "partner"]

def dateSyns : List String := ["trade date", "date", "shift date"]

def startTimeSyns : List String := ["trade start time", "start time", "start", "time start"]

def endTimeSyns : List String := ["trade end time", "end time", "end", "time end"]

def hoursSyns : List String := ["hours", "hour", "duration"]

/-- `header === name || header.includes(name)` against each synonym, on the
lower-cased trimmed header. -/
def headerMatches (header : String) (possible : List String) : Bool :=
  possible.any (fun n => header == n || containsSub header.data n.data)

def normHeader (h : String) : String := String.mk (trimList (lowList h.data))

/-- The paste handler's `findColumnIndex` (`-1` becomes `none`). -/
def findColumnIndexFrom : List String → Nat → List String → Option Nat
  | [], _, _ => none
  | h :: rest, i, possible =>
    if headerMatches (normHeader h) possible then some i
    else findColumnIndexFrom rest (i + 1) possible

def findColumnIndex (headers : List String) (possible : List String) : Option Nat :=
  findColumnIndexFrom headers 0 possible

/-- The upload handler's `findColumnValue`: scan the row's keys in order and
return the value under the first fuzzily-matching key (`null` = `none`). -/
def findColumnValue : List (String × CellVal) → List String → Option CellVal
  | [], _ => none
  | (k, v) :: rest, possible =>
    if headerMatches (normHeader k) possible then some v
    else findColumnValue rest possible

/-! ## Shared row predicates -/

/-- JavaScript truthiness of an optionally-present cell. -/
def cellTruthy : Option CellVal → Bool
  | none => false
  | some (.str s) => !s.isEmpty
  | some (.num q) => q != 0

def optStrTruthy : Option String → Bool
  | none => false
  | some s => !s.isEmpty

/-- The header-row heuristic `/^[a-zA-Z\s]+$/.test(date)`. -/
def headerLikeDate (date : String) : Bool :=
  !date.data.isEmpty && date.data.all (fun c => c.isAlpha || isSpaceC c)

/-- Canonical name: `String(v).trim().toUpperCase()`. -/
def canonName (v : CellVal) : String :=
  String.mk (upList (trimList (jsCellString v).data))

/-- `s.replace(/[^\d.-]/g, "")`. -/
def stripNonNumeric (s : String) : String :=
  String.mk (s.data.filter (fun c => c.isDigit || c = dotC || c = dashC))

/-! ## Pipeline 1: fixed-index paste handler (`/api/parse-paste`, fixed file) -/

def pasteLines (text : String) : List (List Char) := splitLinesC (trimList text.data)

/-- Delimiter detection: tab if the FIRST line contains a tab, else comma. -/
def pasteDelimiter (text : String) : Char :=
  if ((pasteLines text).headD []).any (fun c => c = tabC) then tabC else commaC

/-- `cells[i]?.trim() || ""`. -/
def getCellTrim (cells : List (List Char)) (i : Nat) : String :=
  match cells.get? i with
  | some cs => String.mk (trimList cs)
  | none => ""

/-- One data row of the fixed-index paste handler: columns E/F/G/H/K by
position, header-looking date rows skipped, then the
require-persons-and-date / positive-hours gate.  (`hoursNum` is never NaN on
this path, so the source's `!isNaN` test is vacuous.) -/
def fixedPasteRowTrade (cells : List (List Char)) : Option Trade :=
  let person1 := getCellTrim cells 4
  let date := getCellTrim cells 5
  let startTime := getCellTrim cells 6
  let endTime := getCellTrim cells 7
  let person2 := getCellTrim cells 10
  if headerLikeDate date then none
  else if person1 ≠ "" ∧ person2 ≠ "" ∧ date ≠ "" then
    let hoursNum := calculateHoursFromTimes (some (CellVal.str startTime)) (some (CellVal.str endTime))
    if 0 < hoursNum then
      some ⟨canonName (CellVal.str person1), parseDate (CellVal.str date),
        round2 hoursNum, canonName (CellVal.str person2)⟩
    else none
  else none

/-- `line.split(delimiter)` — the split both paste loops apply to each kept
(trimmed) line, with the single batch-wide delimiter. -/
def splitLineCells (text : String) (lt : List Char) : List (List Char) :=
  splitC (fun c => c = pasteDelimiter text) lt

def pasteFixedTrades (text : String) : List Trade :=
  (pasteLines text).foldl (fun acc line =>
    let lt := trimList line
    if lt.isEmpty then acc
    else
      match fixedPasteRowTrade (splitLineCells text lt) with
      | some t => acc ++ [t]
      | none => acc) []

def parsePasteFixed (text : String) : ParseResult :=
  if (trimList text.data).isEmpty then ParseResult.err msgNoData
  else if pasteLines text = [] then ParseResult.err msgNoRowsFound
  else if pasteFixedTrades text = [] then ParseResult.err msgNoValidFixedPaste
  else ParseResult.ok (pasteFixedTrades text) (successMsg (pasteFixedTrades text).length)

/-! ## Pipeline 2: fixed-index upload handler (`/api/upload`, fixed file) -/

/-- One row of the positional cell grid (`sheet_to_json` with `header: 1`). -/
def fixedGridRowTrade (row : List CellVal) : Option Trade :=
  if row.isEmpty then none
  else
    let person1 := row.get? 4
    let date := row.get? 5
    let startTime := row.get? 6
    let endTime := row.get? 7
    let person2 := row.get? 10
    let headerSkip := match date with
      | some (CellVal.str d) => headerLikeDate (String.mk (trimList d.data))
      | _ => false
    if headerSkip then none
    else if cellTruthy person1 ∧ cellTruthy person2 ∧ cellTruthy date then
      let hoursNum := calculateHoursFromTimes startTime endTime
      if 0 < hoursNum then
        some ⟨canonName (person1.getD (CellVal.str "")), parseDate (date.getD (CellVal.str "")),
          round2 hoursNum, canonName (person2.getD (CellVal.str ""))⟩
      else none
    else none

def gridFixedTrades (rows : List (List CellVal)) : List Trade :=
  rows.foldl (fun acc row =>
    match fixedGridRowTrade row with
    | some t => acc ++ [t]
    | none => acc) []

def processGridFixed (rows : List (List CellVal)) : ParseResult :=
  if rows = [] then ParseResult.err msgNoDataFile
  else if gridFixedTrades rows = [] then ParseResult.err msgNoValidFixedGrid
  else ParseResult.ok (gridFixedTrades rows) (successMsg (gridFixedTrades rows).length)

/-! ## Pipeline 3: fuzzy-header paste handler (`/api/parse-paste`, fuzzy file) -/

/-- `lines[0].split(delimiter).map(h => h.trim().toLowerCase())`. -/
def fuzzyHeaders (text : String) : List String :=
  (splitC (fun c => c = pasteDelimiter text) ((pasteLines text).headD [])).map
    (fun cs => String.mk (lowList (trimList cs)))

def cellAt (cells : List String) (i : Option Nat) : Option String :=
  match i with
  | some j => cells.get? j
  | none => none

/-- One data row of the fuzzy paste handler, given the six resolved column
indices.  Note the start/end guard is JavaScript truthiness here, so an empty
start or end cell falls through to the direct-Hours column. -/
def fuzzyPasteRowTrade (p1i p2i di sti eti hi : Option Nat) (cells : List String) : Option Trade :=
  let person1 := (cellAt cells p1i).getD ""
  let person2 := (cellAt cells p2i).getD ""
  let date := (cellAt cells di).getD ""
  let startTime := cellAt cells sti
  let endTime := cellAt cells eti
  let directHours := cellAt cells hi
  if person1 ≠ "" ∧ person2 ≠ "" ∧ date ≠ "" then
    let hoursNum : Option Rat :=
      if optStrTruthy startTime ∧ optStrTruthy endTime then
        some (calculateHoursFromTimesFz (some (CellVal.str (startTime.getD "")))
          (some (CellVal.str (endTime.getD ""))))
      else if optStrTruthy directHours then
        jsParseFloat (stripNonNumeric (directHours.getD ""))
      else some 0
    match hoursNum with
    | some h =>
      if 0 < h then
        some ⟨canonName (CellVal.str person1), parseDate (CellVal.str date),
          round2 h, canonName (CellVal.str person2)⟩
      else none
    | none => none
  else none

def pasteFuzzyTrades (text : String) : List Trade :=
  let hs := fuzzyHeaders text
  let p1i := findColumnIndex hs person1Syns
  let p2i := findColumnIndex hs person2Syns
  let di := findColumnIndex hs dateSyns
  let sti := findColumnIndex hs startTimeSyns
  let eti := findColumnIndex hs endTimeSyns
  let hi := findColumnIndex hs hoursSyns
  ((pasteLines text).drop 1).foldl (fun acc line =>
    let lt := trimList line
    if lt.isEmpty then acc
    else
      let cells := (splitLineCells text lt).map (fun cs => String.mk (trimList cs))
      match fuzzyPasteRowTrade p1i p2i di sti eti hi cells with
      | some t => acc ++ [t]
      | none => acc) []

def parsePasteFuzzy (text : String) : ParseResult :=
  if (trimList text.data).isEmpty then ParseResult.err msgNoData
  else if pasteLines text = [] then ParseResult.err msgNoRowsFound
  else if findColumnIndex (fuzzyHeaders text) person1Syns = none ∨
      findColumnIndex (fuzzyHeaders text) person2Syns = none ∨
      findColumnIndex (fuzzyHeaders text) dateSyns = none then
    ParseResult.err msgMissingCols
  else if pasteFuzzyTrades text = [] then ParseResult.err msgNoValidFuzzyPaste
  else ParseResult.ok (pasteFuzzyTrades text) (successMsg (pasteFuzzyTrades text).length)

/-! ## Pipeline 4: fuzzy-header upload handler (`/api/upload`, fuzzy file) -/

/-- One header-keyed row of the fuzzy upload handler.  Its time-path guard is
`startTime !== null && endTime !== null`: the mere presence of resolvable
start/end columns (even with empty-string cells, the `defval`) selects the
time path and the direct-Hours column is never consulted. -/
def fuzzyGridRowTrade (row : List (String × CellVal)) : Option Trade :=
  let person1 := findColumnValue row person1Syns
  let person2 := findColumnValue row person2Syns
  let date := findColumnValue row dateSyns
  let startTime := findColumnValue row startTimeSyns
  let endTime := findColumnValue row endTimeSyns
  let directHours := findColumnValue row hoursSyns
  if cellTruthy person1 ∧ cellTruthy person2 ∧ cellTruthy date then
    let hoursNum : Option Rat :=
      if startTime ≠ none ∧ endTime ≠ none then
        some (calculateHoursFromTimesFz startTime endTime)
      else if directHours ≠ none then
        jsParseFloat (stripNonNumeric (jsCellString (directHours.getD (CellVal.str ""))))
      else some 0
    match hoursNum with
    | some h =>
      if 0 < h then
        some ⟨canonName (person1.getD (CellVal.str "")), parseDate (date.getD (CellVal.str "")),
          round2 h, canonName (person2.getD (CellVal.str ""))⟩
      else none
    | none => none
  else none

def gridFuzzyTrades (rows : List (List (String × CellVal))) : List Trade :=
  rows.foldl (fun acc row =>
    match fuzzyGridRowTrade row with
    | some t => acc ++ [t]
    | none => acc) []

def processGridFuzzy (rows : List (List (String × CellVal))) : ParseResult :=
  if rows = [] then ParseResult.err msgNoDataFile
  else if gridFuzzyTrades rows = [] then ParseResult.err msgNoValidFuzzyGrid
  else ParseResult.ok (gridFuzzyTrades rows) (successMsg (gridFuzzyTrades rows).length)

/-! ## Reconciliation aggregator (dashboard `uniqueNames` / `summaryData`)

The dashboard builds a `Set` of names in trade order, sorts them (default
lexicographic string sort), accumulates per-name `youWorked`/`theyWorked` in a
`Map` over the trade list, and finally sorts the summaries by descending
`total` with `Array.prototype.sort` (a stable sort).  The accumulator map is
modelled as a total function defaulting to `(0, 0)`: it is read only at names
that were initialised, and both bumped keys always belong to the name set, so
the `if (person1Data)` presence guards of the source are vacuously true. -/

def charListLt : List Char → List Char → Bool
  | [], [] => false
  | [], _ :: _ => true
  | _ :: _, [] => false
  | a :: as, b :: bs =>
    if a.toNat < b.toNat then true
    else if b.toNat < a.toNat then false
    else charListLt as bs

/-- Default JavaScript string comparison (lexicographic by code unit). -/
def strLtB (a b : String) : Bool := charListLt a.data b.data

def insertStr (x : String) : List String → List String
  | [] => [x]
  | y :: ys => if strLtB x y then x :: y :: ys else y :: insertStr x ys

/-- Sorting of the (duplicate-free) name array; with distinct keys every
comparison-correct sort agrees, so insertion sort models `Array.sort`. -/
def sortStrings : List String → List String
  | [] => []
  | x :: xs => insertStr x (sortStrings xs)

/-- Set-insertion order collection of `person1`/`person2` over the trades. -/
def collectNames : List Trade → List String → List String
  | [], acc => acc
  | t :: ts, acc =>
    let a1 := if t.person1 ∈ acc then acc else acc ++ [t.person1]
    let a2 := if t.person2 ∈ a1 then a1 else a1 ++ [t.person2]
    collectNames ts a2

def uniqueNames (trades : List Trade) : List String :=
  sortStrings (collectNames trades [])

def bumpYou (m : String → Rat × Rat) (name : String) (h : Rat) : String → Rat × Rat :=
  fun k => if k = name then (radd (m k).1 h, (m k).2) else m k

def bumpThey (m : String → Rat × Rat) (name : String) (h : Rat) : String → Rat × Rat :=
  fun k => if k = name then ((m k).1, radd (m k).2 h) else m k

/-- One loop iteration: `person1.youWorked += hours; person2.theyWorked += hours`. -/
def applyTrade (m : String → Rat × Rat) (t : Trade) : String → Rat × Rat :=
  bumpThey (bumpYou m t.person1 t.hours) t.person2 t.hours

def summaryAcc (trades : List Trade) : String → Rat × Rat :=
  trades.foldl applyTrade (fun _ => (0, 0))

/-- Stable insertion (from the right) for the descending-by-total sort: a new
element passes over every strictly larger total and stops before the first
total that is ≤ its own, so ties keep their original order — the same output
as the source's stable comparator sort `(a, b) => b.total - a.total`. -/
def insertByTotal (x : PersonSummary) : List PersonSummary → List PersonSummary
  | [] => [x]
  | y :: ys => if x.total < y.total then y :: insertByTotal x ys else x :: y :: ys

def sortByTotalDesc : List PersonSummary → List PersonSummary
  | [] => []
  | x :: xs => insertByTotal x (sortByTotalDesc xs)

/-- The dashboard's `summaryData` memo. -/
def summaryData (trades : List Trade) : List PersonSummary :=
  sortByTotalDesc ((uniqueNames trades).map (fun n =>
    ⟨n, (summaryAcc trades n).1, (summaryAcc trades n).2,
      rsub (summaryAcc trades n).1 (summaryAcc trades n).2⟩))

/-! ## Spec-side definitions for the delimiter claim (C8)

Written from the specification's words, to be compared with the source-side
`pasteDelimiter` / `splitLineCells`. -/

/-- Claimed rule: split on tab if ANY line of the input contains a tab. -/
def claimDelimiterAnyLine (text : String) : Char :=
  if (pasteLines text).any (fun l => l.any (fun c => c = tabC)) then tabC else commaC

/-- Amended rule: split on tab if the FIRST line contains a tab. -/
def specDelimiterFirstLine (text : String) : Char :=
  if ((pasteLines text).headD []).any (fun c => c = tabC) then tabC else commaC

/-- The rows of cells the paste handlers work on (each kept line is first
trimmed, then split by `splitLineCells` with the batch delimiter). -/
def pastedCellRows (text : String) : List (List String) :=
  (pasteLines text).map (fun l => (splitLineCells text (trimList l)).map String.mk)

/-- The same rows as the claim describes them (any-line delimiter rule). -/
def claimCellRowsAnyLine (text : String) : List (List String) :=
  (pasteLines text).map (fun l =>
    ((splitC (fun c => c = claimDelimiterAnyLine text) (trimList l)).map String.mk))

/-- The same rows under the amended first-line delimiter rule. -/
def specCellRowsFirstLine (text : String) : List (List String) :=
  (pasteLines text).map (fun l =>
    ((splitC (fun c => c = specDelimiterFirstLine text) (trimList l)).map String.mk))

/-! ## Bridge lemmas: the `mkRat`-based operations equal the standard ones -/

theorem radd_eq (a b : Rat) : radd a b = a + b := (Rat.add_def' a b).symm

theorem rsub_eq (a b : Rat) : rsub a b = a - b := (Rat.sub_def' a b).symm

theorem rmul_eq (a b : Rat) : rmul a b = a * b := by
  rw [rmul, Rat.mul_def, Rat.normalize_eq_mkRat]

theorem divNat_eq (a : Rat) (n : Nat) : divNat a n = a / (n : Rat) := by
  rw [divNat, Rat.mkRat_eq_div]
  have h1 : ((a.den * n : Nat) : ℚ) = (a.den : ℚ) * n := by push_cast; ring
  rw [h1, div_mul_eq_div_div, Rat.num_div_den]

theorem rfloor_eq (q : Rat) : Rat.floor q = ⌊q⌋ := by
  rw [Rat.floor_def', Rat.floor_def]

theorem jsRound_eq (q : Rat) : jsRound q = ⌊q + 1 / 2⌋ := by
  rw [jsRound, rfloor_eq, radd_eq, Rat.mkRat_eq_div]
  norm_num

theorem round2_eq (q : Rat) : round2 q = ((⌊q * 100 + 1 / 2⌋ : Int) : Rat) / 100 := by
  rw [round2, divNat_eq, jsRound_eq, rmul_eq]
  norm_num

/-! ## Rounding and clamping bounds -/

theorem round2_nonneg (q : Rat) (h : 0 ≤ q) : 0 ≤ round2 q := by
  rw [round2_eq]
  have h1 : (0 : Int) ≤ ⌊q * 100 + 1 / 2⌋ := Int.floor_nonneg.mpr (by nlinarith)
  have h2 : (0 : Rat) ≤ ((⌊q * 100 + 1 / 2⌋ : Int) : Rat) := by exact_mod_cast h1
  positivity

theorem round2_le (q : Rat) (n : Nat) (h : q ≤ (n : Rat)) : round2 q ≤ (n : Rat) := by
  rw [round2_eq]
  have h1 : ⌊q * 100 + 1 / 2⌋ ≤ ⌊((n : Rat)) * 100 + 1 / 2⌋ :=
    Int.floor_le_floor (by linarith)
  have h2 : ⌊((n : Rat)) * 100 + 1 / 2⌋ = (n : Int) * 100 := by
    apply Int.floor_eq_iff.mpr
    constructor
    · push_cast
      linarith
    · push_cast
      linarith
  rw [h2] at h1
  have h3 : ((⌊q * 100 + 1 / 2⌋ : Int) : Rat) ≤ ((n : Int) : Rat) * 100 := by
    exact_mod_cast h1
  rw [div_le_iff₀ (by norm_num : (0 : Rat) < 100)]
  push_cast at h3 ⊢
  linarith

theorem calcHoursWith_le_24 (tp : String → Rat) (s e : Option CellVal) :
    calcHoursWith tp s e ≤ 24 := by
  unfold calcHoursWith
  split
  · norm_num
  · split
    · split
      · dsimp only
        split_ifs <;> linarith
      · norm_num
    · norm_num

theorem round2_le_24 (q : Rat) (h : q ≤ 24) : round2 q ≤ 24 := by
  have h1 := round2_le q 24 (by exact_mod_cast h)
  exact_mod_cast h1

theorem calculateHoursFromTimes_le_24 (s e : Option CellVal) :
    calculateHoursFromTimes s e ≤ 24 := by
  unfold calculateHoursFromTimes
  exact calcHoursWith_le_24 parseTimeStringDT s e

theorem calculateHoursFromTimesFz_le_24 (s e : Option CellVal) :
    calculateHoursFromTimesFz s e ≤ 24 := by
  unfold calculateHoursFromTimesFz
  exact calcHoursWith_le_24 parseTimeString s e

/-! ## Bounds on every trade the row loops accumulate -/

theorem foldl_mem_invariant {α : Type} (P : Trade → Prop) (g : List Trade → α → List Trade)
    (hg : ∀ acc r t, t ∈ g acc r → t ∈ acc ∨ P t) :
    ∀ (rows : List α) (acc : List Trade) (t : Trade), t ∈ rows.foldl g acc → t ∈ acc ∨ P t := by
  intro rows
  induction rows with
  | nil =>
    intro acc t h
    exact Or.inl h
  | cons r rs ih =>
    intro acc t h
    simp only [List.foldl_cons] at h
    rcases ih (g acc r) t h with h1 | h2
    · exact hg acc r t h1
    · exact Or.inr h2

theorem fixedPasteRowTrade_hours (cells : List (List Char)) (t : Trade)
    (h : fixedPasteRowTrade cells = some t) : 0 ≤ t.hours ∧ t.hours ≤ 24 := by
  unfold fixedPasteRowTrade at h
  dsimp only at h
  split at h
  · exact absurd h (by simp)
  · split at h
    · split at h
      · rename_i hpos
        obtain rfl := (Option.some.inj h)
        refine ⟨round2_nonneg _ (le_of_lt hpos), round2_le_24 _ (calculateHoursFromTimes_le_24 _ _)⟩
      · exact absurd h (by simp)
    · exact absurd h (by simp)

theorem fixedGridRowTrade_hours (row : List CellVal) (t : Trade)
    (h : fixedGridRowTrade row = some t) : 0 ≤ t.hours ∧ t.hours ≤ 24 := by
  unfold fixedGridRowTrade at h
  split at h
  · exact absurd h (by simp)
  · dsimp only at h
    split at h
    · exact absurd h (by simp)
    · split at h
      · split at h
        · rename_i hpos
          obtain rfl := (Option.some.inj h)
          refine ⟨round2_nonneg _ (le_of_lt hpos), round2_le_24 _ (calculateHoursFromTimes_le_24 _ _)⟩
        · exact absurd h (by simp)
      · exact absurd h (by simp)

theorem fuzzyPasteRowTrade_hours (p1i p2i di sti eti hi : Option Nat) (cells : List String)
    (t : Trade) (h : fuzzyPasteRowTrade p1i p2i di sti eti hi cells = some t) : 0 ≤ t.hours := by
  unfold fuzzyPasteRowTrade at h
  dsimp only at h
  split at h
  · split at h
    · rename_i hv _
      split at h
      · rename_i hpos
        obtain rfl := (Option.some.inj h)
        exact round2_nonneg _ (le_of_lt hpos)
      · exact absurd h (by simp)
    · exact absurd h (by simp)
  · exact absurd h (by simp)

theorem fuzzyGridRowTrade_hours (row : List (String × CellVal)) (t : Trade)
    (h : fuzzyGridRowTrade row = some t) : 0 ≤ t.hours := by
  unfold fuzzyGridRowTrade at h
  dsimp only at h
  split at h
  · split at h
    · rename_i hv _
      split at h
      · rename_i hpos
        obtain rfl := (Option.some.inj h)
        exact round2_nonneg _ (le_of_lt hpos)
      · exact absurd h (by simp)
    · exact absurd h (by simp)
  · exact absurd h (by simp)

theorem pasteFixedTrades_hours (text : String) (t : Trade) (h : t ∈ pasteFixedTrades text) :
    0 ≤ t.hours ∧ t.hours ≤ 24 := by
  unfold pasteFixedTrades at h
  have inv := foldl_mem_invariant (fun u => 0 ≤ u.hours ∧ u.hours ≤ 24) _
    (fun acc line u hu => by
      dsimp only at hu
      split at hu
      · exact Or.inl hu
      · split at hu
        · rename_i t2 heq
          rcases List.mem_append.mp hu with h1 | h2
          · exact Or.inl h1
          · obtain rfl := List.mem_singleton.mp h2
            exact Or.inr (fixedPasteRowTrade_hours _ _ heq)
        · exact Or.inl hu)
    (pasteLines text) [] t h
  rcases inv with h1 | h2
  · exact absurd h1 (List.not_mem_nil t)
  · exact h2

theorem gridFixedTrades_hours (rows : List (List CellVal)) (t : Trade)
    (h : t ∈ gridFixedTrades rows) : 0 ≤ t.hours ∧ t.hours ≤ 24 := by
  unfold gridFixedTrades at h
  have inv := foldl_mem_invariant (fun u => 0 ≤ u.hours ∧ u.hours ≤ 24) _
    (fun acc row u hu => by
      split at hu
      · rename_i t2 heq
        rcases List.mem_append.mp hu with h1 | h2
        · exact Or.inl h1
        · obtain rfl := List.mem_singleton.mp h2
          exact Or.inr (fixedGridRowTrade_hours _ _ heq)
      · exact Or.inl hu)
    rows [] t h
  rcases inv with h1 | h2
  · exact absurd h1 (List.not_mem_nil t)
  · exact h2

theorem pasteFuzzyTrades_hours (text : String) (t : Trade) (h : t ∈ pasteFuzzyTrades text) :
    0 ≤ t.hours := by
  unfold pasteFuzzyTrades at h
  dsimp only at h
  have inv := foldl_mem_invariant (fun u => 0 ≤ u.hours) _
    (fun acc line u hu => by
      split at hu
      · exact Or.inl hu
      · split at hu
        · rename_i t2 heq
          rcases List.mem_append.mp hu with h1 | h2
          · exact Or.inl h1
          · obtain rfl := List.mem_singleton.mp h2
            exact Or.inr (fuzzyPasteRowTrade_hours _ _ _ _ _ _ _ _ heq)
        · exact Or.inl hu)
    ((pasteLines text).drop 1) [] t h
  rcases inv with h1 | h2
  · exact absurd h1 (List.not_mem_nil t)
  · exact h2

theorem gridFuzzyTrades_hours (rows : List (List (String × CellVal))) (t : Trade)
    (h : t ∈ gridFuzzyTrades rows) : 0 ≤ t.hours := by
  unfold gridFuzzyTrades at h
  have inv := foldl_mem_invariant (fun u => 0 ≤ u.hours) _
    (fun acc row u hu => by
      split at hu
      · rename_i t2 heq
        rcases List.mem_append.mp hu with h1 | h2
        · exact Or.inl h1
        · obtain rfl := List.mem_singleton.mp h2
          exact Or.inr (fuzzyGridRowTrade_hours _ _ heq)
      · exact Or.inl hu)
    rows [] t h
  rcases inv with h1 | h2
  · exact absurd h1 (List.not_mem_nil t)
  · exact h2

/-! ## Aggregator lemmas -/

theorem insertStr_perm (x : String) (l : List String) : (insertStr x l).Perm (x :: l) := by
  induction l with
  | nil => exact List.Perm.refl _
  | cons y ys ih =>
    by_cases hc : strLtB x y = true
    · simp [insertStr, hc]
    · simp only [insertStr, hc, if_false, Bool.false_eq_true]
      exact (ih.cons y).trans (List.Perm.swap x y ys)

theorem sortStrings_perm (l : List String) : (sortStrings l).Perm l := by
  induction l with
  | nil => exact List.Perm.refl _
  | cons x xs ih =>
    exact (insertStr_perm x (sortStrings xs)).trans (ih.cons x)

theorem insertByTotal_perm (x : PersonSummary) (l : List PersonSummary) :
    (insertByTotal x l).Perm (x :: l) := by
  induction l with
  | nil => exact List.Perm.refl _
  | cons y ys ih =>
    by_cases hc : x.total < y.total
    · simp only [insertByTotal, hc, if_true]
      exact (ih.cons y).trans (List.Perm.swap x y ys)
    · simp [insertByTotal, hc]

theorem sortByTotalDesc_perm (l : List PersonSummary) : (sortByTotalDesc l).Perm l := by
  induction l with
  | nil => exact List.Perm.refl _
  | cons x xs ih =>
    exact (insertByTotal_perm x (sortByTotalDesc xs)).trans (ih.cons x)

theorem mem_collectNames_acc (ts : List Trade) :
    ∀ (acc : List String) (x : String), x ∈ acc → x ∈ collectNames ts acc := by
  induction ts with
  | nil =>
    intro acc x h
    simpa [collectNames] using h
  | cons t ts ih =>
    intro acc x h
    unfold collectNames
    dsimp only
    apply ih
    split_ifs <;> simp [List.mem_append, h]

theorem mem_collectNames_persons (ts : List Trade) :
    ∀ (acc : List String) (t : Trade), t ∈ ts →
      t.person1 ∈ collectNames ts acc ∧ t.person2 ∈ collectNames ts acc := by
  induction ts with
  | nil =>
    intro acc t h
    exact absurd h (List.not_mem_nil t)
  | cons u us ih =>
    intro acc t h
    rcases List.mem_cons.mp h with rfl | hmem
    · have h1 : t.person1 ∈ (if t.person1 ∈ acc then acc else acc ++ [t.person1]) := by
        split_ifs with hin
        · exact hin
        · exact List.mem_append_right _ (List.mem_singleton_self _)
      have h2 : ∀ a1 : List String, t.person2 ∈ (if t.person2 ∈ a1 then a1 else a1 ++ [t.person2]) := by
        intro a1
        split_ifs with hin
        · exact hin
        · exact List.mem_append_right _ (List.mem_singleton_self _)
      have h3 : ∀ (x : String) (a1 : List String), x ∈ a1 →
          x ∈ (if t.person2 ∈ a1 then a1 else a1 ++ [t.person2]) := by
        intro x a1 hx
        split_ifs with hin
        · exact hx
        · exact List.mem_append_left _ hx
      unfold collectNames
      dsimp only
      exact ⟨mem_collectNames_acc us _ _ (h3 _ _ h1), mem_collectNames_acc us _ _ (h2 _)⟩
    · unfold collectNames
      dsimp only
      exact ih _ t hmem

theorem collectNames_nodup (ts : List Trade) :
    ∀ acc : List String, acc.Nodup → (collectNames ts acc).Nodup := by
  induction ts with
  | nil =>
    intro acc h
    simpa [collectNames] using h
  | cons t ts ih =>
    intro acc h
    have happ : ∀ (x : String) (l : List String), l.Nodup →
        (if x ∈ l then l else l ++ [x]).Nodup := by
      intro x l hl
      split_ifs with hin
      · exact hl
      · refine List.Nodup.append hl (List.nodup_singleton x) ?_
        intro a ha hb
        rw [List.mem_singleton] at hb
        subst hb
        exact hin ha
    unfold collectNames
    dsimp only
    exact ih _ (happ _ _ (happ _ _ h))

theorem uniqueNames_nodup (ts : List Trade) : (uniqueNames ts).Nodup := by
  unfold uniqueNames
  exact ((sortStrings_perm _).nodup_iff).mpr (collectNames_nodup ts [] List.nodup_nil)

theorem uniqueNames_mem_persons (ts : List Trade) (t : Trade) (h : t ∈ ts) :
    t.person1 ∈ uniqueNames ts ∧ t.person2 ∈ uniqueNames ts := by
  unfold uniqueNames
  constructor
  · exact ((sortStrings_perm _).mem_iff).mpr (mem_collectNames_persons ts [] t h).1
  · exact ((sortStrings_perm _).mem_iff).mpr (mem_collectNames_persons ts [] t h).2

theorem bumpThey_fst (m : String → Rat × Rat) (name : String) (h : Rat) (n : String) :
    (bumpThey m name h n).1 = (m n).1 := by
  unfold bumpThey
  split_ifs <;> rfl

theorem bumpYou_snd (m : String → Rat × Rat) (name : String) (h : Rat) (n : String) :
    (bumpYou m name h n).2 = (m n).2 := by
  unfold bumpYou
  split_ifs <;> rfl

theorem bumpYou_fst (m : String → Rat × Rat) (name : String) (h : Rat) (n : String) :
    (bumpYou m name h n).1 = if name = n then (m n).1 + h else (m n).1 := by
  unfold bumpYou
  by_cases hc : n = name
  · subst hc
    simp [radd_eq]
  · rw [if_neg hc, if_neg (fun he => hc he.symm)]

theorem bumpThey_snd (m : String → Rat × Rat) (name : String) (h : Rat) (n : String) :
    (bumpThey m name h n).2 = if name = n then (m n).2 + h else (m n).2 := by
  unfold bumpThey
  by_cases hc : n = name
  · subst hc
    simp [radd_eq]
  · rw [if_neg hc, if_neg (fun he => hc he.symm)]

theorem applyTrade_fst (m : String → Rat × Rat) (t : Trade) (n : String) :
    ((applyTrade m t) n).1 = if t.person1 = n then (m n).1 + t.hours else (m n).1 := by
  unfold applyTrade
  rw [bumpThey_fst, bumpYou_fst]

theorem applyTrade_snd (m : String → Rat × Rat) (t : Trade) (n : String) :
    ((applyTrade m t) n).2 = if t.person2 = n then (m n).2 + t.hours else (m n).2 := by
  unfold applyTrade
  rw [bumpThey_snd]
  split_ifs <;> rw [bumpYou_snd]

theorem foldl_applyTrade_fst (ts : List Trade) :
    ∀ (m : String → Rat × Rat) (n : String),
      ((ts.foldl applyTrade m) n).1
        = (m n).1 + ((ts.filter (fun t => t.person1 = n)).map (fun t => t.hours)).sum := by
  induction ts with
  | nil =>
    intro m n
    simp
  | cons t ts ih =>
    intro m n
    simp only [List.foldl_cons]
    rw [ih (applyTrade m t) n, applyTrade_fst]
    by_cases hc : t.person1 = n
    · rw [if_pos hc, List.filter_cons_of_pos (by simp [hc])]
      simp only [List.map_cons, List.sum_cons]
      ring
    · rw [if_neg hc, List.filter_cons_of_neg (by simp [hc])]

theorem foldl_applyTrade_snd (ts : List Trade) :
    ∀ (m : String → Rat × Rat) (n : String),
      ((ts.foldl applyTrade m) n).2
        = (m n).2 + ((ts.filter (fun t => t.person2 = n)).map (fun t => t.hours)).sum := by
  induction ts with
  | nil =>
    intro m n
    simp
  | cons t ts ih =>
    intro m n
    simp only [List.foldl_cons]
    rw [ih (applyTrade m t) n, applyTrade_snd]
    by_cases hc : t.person2 = n
    · rw [if_pos hc, List.filter_cons_of_pos (by simp [hc])]
      simp only [List.map_cons, List.sum_cons]
      ring
    · rw [if_neg hc, List.filter_cons_of_neg (by simp [hc])]

theorem summaryAcc_fst (ts : List Trade) (n : String) :
    (summaryAcc ts n).1 = ((ts.filter (fun t => t.person1 = n)).map (fun t => t.hours)).sum := by
  unfold summaryAcc
  rw [foldl_applyTrade_fst]
  simp

theorem summaryAcc_snd (ts : List Trade) (n : String) :
    (summaryAcc ts n).2 = ((ts.filter (fun t => t.person2 = n)).map (fun t => t.hours)).sum := by
  unfold summaryAcc
  rw [foldl_applyTrade_snd]
  simp

theorem sum_map_sub {α : Type} (l : List α) (f g : α → Rat) :
    (l.map (fun x => f x - g x)).sum = (l.map f).sum - (l.map g).sum := by
  induction l with
  | nil => simp
  | cons x xs ih =>
    simp only [List.map_cons, List.sum_cons, ih]
    ring

theorem sum_map_if_add (k : String) (x : Rat) (g : String → Rat) :
    ∀ names : List String, names.Nodup → k ∈ names →
      (names.map (fun n => if k = n then x + g n else g n)).sum = x + (names.map g).sum := by
  intro names
  induction names with
  | nil =>
    intro _ h
    exact absurd h (List.not_mem_nil k)
  | cons y ys ih =>
    intro hnd hk
    rcases List.mem_cons.mp hk with rfl | hmem
    · simp only [List.map_cons, List.sum_cons, if_true]
      have hys : ∀ n ∈ ys, (if k = n then x + g n else g n) = g n := by
        intro n hn
        rw [if_neg]
        intro he
        exact (List.nodup_cons.mp hnd).1 (he ▸ hn)
      rw [List.map_congr_left hys]
      ring
    · have hy : ¬ (k = y) := by
        intro he
        exact (List.nodup_cons.mp hnd).1 (he ▸ hmem)
      simp only [List.map_cons, List.sum_cons, if_neg hy]
      rw [ih (List.nodup_cons.mp hnd).2 hmem]
      ring

theorem sum_names_filter (keyf : Trade → String) :
    ∀ (ts : List Trade) (names : List String), names.Nodup →
      (∀ t ∈ ts, keyf t ∈ names) →
      (names.map (fun n => ((ts.filter (fun t => keyf t = n)).map (fun t => t.hours)).sum)).sum
        = (ts.map (fun t => t.hours)).sum := by
  intro ts
  induction ts with
  | nil =>
    intro names _ _
    simp
  | cons t ts ih =>
    intro names hnd hmem
    have hkey : keyf t ∈ names := hmem t (List.mem_cons_self t ts)
    have hstep : ∀ n ∈ names,
        ((List.filter (fun u => decide (keyf u = n)) (t :: ts)).map (fun u => u.hours)).sum
          = (if keyf t = n
              then t.hours + ((ts.filter (fun u => keyf u = n)).map (fun u => u.hours)).sum
              else ((ts.filter (fun u => keyf u = n)).map (fun u => u.hours)).sum) := by
      intro n _
      by_cases hc : keyf t = n
      · rw [List.filter_cons_of_pos (by simp [hc]), if_pos hc]
        simp
      · rw [List.filter_cons_of_neg (by simp [hc]), if_neg hc]
    rw [List.map_congr_left hstep]
    rw [sum_map_if_add (keyf t) t.hours _ names hnd hkey]
    rw [ih names hnd (fun u hu => hmem u (List.mem_cons_of_mem t hu))]
    simp

theorem insertByTotal_pairwise (x : PersonSummary) (l : List PersonSummary)
    (hl : l.Pairwise (fun a b => b.total ≤ a.total)) :
    (insertByTotal x l).Pairwise (fun a b => b.total ≤ a.total) := by
  induction l with
  | nil => simp [insertByTotal]
  | cons y ys ih =>
    rcases List.pairwise_cons.mp hl with ⟨hy, hys⟩
    by_cases hc : x.total < y.total
    · simp only [insertByTotal, hc, if_true]
      refine List.pairwise_cons.mpr ⟨?_, ih hys⟩
      intro z hz
      have hz2 : z ∈ x :: ys := ((insertByTotal_perm x ys).mem_iff).mp hz
      rcases List.mem_cons.mp hz2 with rfl | hzys
      · exact le_of_lt hc
      · exact hy z hzys
    · simp only [insertByTotal, hc, if_false]
      refine List.pairwise_cons.mpr ⟨?_, hl⟩
      intro z hz
      rcases List.mem_cons.mp hz with rfl | hzys
      · exact le_of_not_lt hc
      · exact le_trans (hy z hzys) (le_of_not_lt hc)

theorem sortByTotalDesc_pairwise (l : List PersonSummary) :
    (sortByTotalDesc l).Pairwise (fun a b => b.total ≤ a.total) := by
  induction l with
  | nil => simp [sortByTotalDesc]
  | cons x xs ih => exact insertByTotal_pairwise x _ ih

/-! ## Claim theorems -/

/-- C1: for every list of Trade records, the reconciliation aggregator's
per-person totals sum to 0, where each person's `total` is
`youWorked − theyWorked`, `youWorked` is the sum of hours of trades with that
person as `person1`, and `theyWorked` the sum over trades with that person as
`person2`. -/
theorem c1_zero_sum (trades : List Trade) :
    ((summaryData trades).map (fun p => p.total)).sum = 0 ∧
    ∀ p ∈ summaryData trades,
      p.total = p.youWorked - p.theyWorked ∧
      p.youWorked = ((trades.filter (fun t => t.person1 = p.name)).map (fun t => t.hours)).sum ∧
      p.theyWorked = ((trades.filter (fun t => t.person2 = p.name)).map (fun t => t.hours)).sum := by
  have hnd := uniqueNames_nodup trades
  constructor
  · unfold summaryData
    rw [((sortByTotalDesc_perm _).map (fun p => p.total)).sum_eq, List.map_map]
    have hpt : ∀ n ∈ uniqueNames trades,
        ((fun p => p.total) ∘ (fun n => (⟨n, (summaryAcc trades n).1, (summaryAcc trades n).2,
            rsub (summaryAcc trades n).1 (summaryAcc trades n).2⟩ : PersonSummary))) n
          = ((trades.filter (fun t => t.person1 = n)).map (fun t => t.hours)).sum
            - ((trades.filter (fun t => t.person2 = n)).map (fun t => t.hours)).sum := by
      intro n _
      simp only [Function.comp]
      rw [rsub_eq, summaryAcc_fst, summaryAcc_snd]
    rw [List.map_congr_left hpt, sum_map_sub]
    rw [sum_names_filter (fun t => t.person1) trades _ hnd
      (fun t ht => (uniqueNames_mem_persons trades t ht).1)]
    rw [sum_names_filter (fun t => t.person2) trades _ hnd
      (fun t ht => (uniqueNames_mem_persons trades t ht).2)]
    ring
  · intro p hp
    unfold summaryData at hp
    have hp2 := ((sortByTotalDesc_perm _).mem_iff).mp hp
    obtain ⟨n, _, rfl⟩ := List.mem_map.mp hp2
    refine ⟨by dsimp only; rw [rsub_eq], ?_, ?_⟩
    · dsimp only
      exact summaryAcc_fst trades n
    · dsimp only
      exact summaryAcc_snd trades n

/-- Witness for C1 at a concrete trade list. -/
theorem c1_zero_sum_witness :
    (⟨"ALICE", 8, 0, 8⟩ : PersonSummary) ∈ summaryData [⟨"ALICE", "2024-01-02", 8, "BOB"⟩] ∧
    ((⟨"ALICE", 8, 0, 8⟩ : PersonSummary).total
      = (⟨"ALICE", 8, 0, 8⟩ : PersonSummary).youWorked - (⟨"ALICE", 8, 0, 8⟩ : PersonSummary).theyWorked ∧
     (⟨"ALICE", 8, 0, 8⟩ : PersonSummary).youWorked
      = ((([⟨"ALICE", "2024-01-02", 8, "BOB"⟩] : List Trade).filter
          (fun t => t.person1 = (⟨"ALICE", 8, 0, 8⟩ : PersonSummary).name)).map (fun t => t.hours)).sum ∧
     (⟨"ALICE", 8, 0, 8⟩ : PersonSummary).theyWorked
      = ((([⟨"ALICE", "2024-01-02", 8, "BOB"⟩] : List Trade).filter
          (fun t => t.person2 = (⟨"ALICE", 8, 0, 8⟩ : PersonSummary).name)).map (fun t => t.hours)).sum) :=
  ⟨by decide, (c1_zero_sum [⟨"ALICE", "2024-01-02", 8, "BOB"⟩]).2 _ (by decide)⟩

/-- C10: the reconciliation aggregator returns the PersonSummary list sorted
in non-increasing order of `total` (descending net balance). -/
theorem c10_summary_sorted (trades : List Trade) :
    (summaryData trades).Pairwise (fun a b => b.total ≤ a.total) := by
  unfold summaryData
  exact sortByTotalDesc_pairwise _

/-- C3: for fraction-of-day inputs in [0,1) the duration calculator returns
`(end − start) × 24` when `end ≥ start` and `(end − start) × 24 + 24`
otherwise, never exceeding 24; and textual start "22:00" with end "02:00"
gives exactly 4 hours. -/
theorem c3_duration (s e : Rat) (hs0 : 0 ≤ s) (hs1 : s < 1) (he0 : 0 ≤ e) (he1 : e < 1) :
    (calculateHoursFromTimes (some (CellVal.num s)) (some (CellVal.num e))
      = if s ≤ e then (e - s) * 24 else (e - s) * 24 + 24) ∧
    calculateHoursFromTimes (some (CellVal.num s)) (some (CellVal.num e)) ≤ 24 ∧
    calculateHoursFromTimes (some (CellVal.str ("22:00"))) (some (CellVal.str ("02:00"))) = 4 := by
  have hmod : ∀ q : Rat, 0 ≤ q → q < 1 → jsMod1 q = q := by
    intro q h0 h1
    unfold jsMod1 jsTrunc
    rw [if_neg (not_lt.mpr h0), rfloor_eq, Int.floor_eq_zero_iff.mpr (Set.mem_Ico.mpr ⟨h0, h1⟩)]
    rw [rsub_eq]
    simp
  have hcalc : calculateHoursFromTimes (some (CellVal.num s)) (some (CellVal.num e))
      = if s ≤ e then (e - s) * 24 else (e - s) * 24 + 24 := by
    unfold calculateHoursFromTimes calcHoursWith
    rw [if_neg (by simp)]
    dsimp only [cellToDecimal]
    rw [hmod s hs0 hs1, hmod e he0 he1, rmul_eq, rsub_eq]
    by_cases hc : s ≤ e
    · rw [if_pos hc,
        if_neg (show ¬ ((e - s) * 24 < 0) from not_lt.mpr (by nlinarith)),
        if_neg (show ¬ ((e - s) * 24 > 24) from not_lt.mpr (by nlinarith))]
    · push_neg at hc
      rw [if_neg (not_le.mpr hc),
        if_pos (show (e - s) * 24 < 0 from by nlinarith), radd_eq,
        if_neg (show ¬ ((e - s) * 24 + 24 > 24) from not_lt.mpr (by nlinarith))]
  refine ⟨hcalc, ?_, by decide⟩
  rw [hcalc]
  split_ifs <;> nlinarith

/-- Witness for C3, applied at start 9/24 and end 2/24 (an overnight pair). -/
theorem c3_duration_witness :
    calculateHoursFromTimes (some (CellVal.num (mkRat 9 24))) (some (CellVal.num (mkRat 2 24)))
      = (if (mkRat 9 24 : Rat) ≤ mkRat 2 24
          then (mkRat 2 24 - mkRat 9 24) * 24 else (mkRat 2 24 - mkRat 9 24) * 24 + 24) :=
  (c3_duration (mkRat 9 24) (mkRat 2 24) (by decide) (by decide) (by decide) (by decide)).1

/-- C5 counterexample: numeric serial 1 is converted to "1899-12-31", not the
claimed "1900-01-01" (the 1899-12-30 epoch puts serials 1–59 one day earlier
than the nominal spreadsheet mapping). -/
theorem c5_serial_counterexample :
    parseDate (CellVal.num 1) = ("1899-12-31") ∧ ("1899-12-31" : String) ≠ "1900-01-01" :=
  ⟨by decide, by decide⟩

/-- C5 amended: a nonzero integer serial `n` is converted as the epoch
1899-12-30 plus `n` days, taken as a UTC calendar date; in particular serial 1
yields "1899-12-31". -/
theorem c5_amended :
    (∀ n : Int, n ≠ 0 →
      parseDate (CellVal.num ((n : Int) : Rat)) = isoDate (excelEpochDays + n)) ∧
    parseDate (CellVal.num 1) = ("1899-12-31") := by
  constructor
  · intro n hn
    simp only [parseDate]
    have h0 : ¬ (((n : Int) : Rat) = 0) := by exact_mod_cast hn
    rw [if_neg h0]
    congr 1
    have h1 : radd ((excelEpochDays * 86400000 : Int) : Rat) (rmul ((n : Int) : Rat) 86400000)
        = (((excelEpochDays + n) * 86400000 : Int) : Rat) := by
      rw [radd_eq, rmul_eq]
      push_cast
      ring
    rw [h1]
    have h2 : ∀ m : Int, jsTrunc ((m : Int) : Rat) = m := by
      intro m
      unfold jsTrunc
      split_ifs with hm
      · rw [rfloor_eq, show (-((m : Int) : Rat)) = (((-m : Int) : Int) : Rat) from by push_cast; ring,
          Int.floor_intCast]
        ring
      · rw [rfloor_eq, Int.floor_intCast]
    rw [h2]
    exact Int.mul_fdiv_cancel _ (by norm_num)
  · decide

/-- Witness for C5 at serial 45658 (which lands on 2025-01-01). -/
theorem c5_amended_witness :
    parseDate (CellVal.num ((45658 : Int) : Rat)) = isoDate (excelEpochDays + 45658) :=
  c5_amended.1 45658 (by decide)

/-- C4 counterexample: "13:00 PM" matches the bare-time pattern (its written
hour 13 passes the 0–23 check, which runs before AM/PM normalization) yet
parses to 25/24 — a value neither in [0,1) nor the InvalidTime sentinel −1. -/
theorem c4_counterexample :
    parseTimeString ("13:00 PM") = mkRat 25 24 ∧
    ¬ (parseTimeString ("13:00 PM") < 1) ∧
    parseTimeString ("13:00 PM") ≠ -1 :=
  ⟨by decide, by decide, by decide⟩

/-- C4 amended: on any text whose trimmed upper-cased form matches the bare
time pattern H:MM[:SS] [AM|PM], the parser rejects out-of-range written
components (hour > 23, minutes > 59, seconds > 59) with −1, and otherwise
returns `(normalizedHour + m/60 + s/3600)/24` where normalization sends 12 AM
to 0, leaves 12 PM unchanged and adds 12 for PM otherwise; the result lies in
[0,1) unless a 24-hour written hour 13–23 is combined with an explicit PM
suffix, in which case it is ≥ 1 (the range check precedes normalization). -/
theorem c4_amended (str : String) (h m s : Nat) (p : Option Period)
    (hbare : matchBareTime (processedTime str) = some (h, m, s, p)) :
    ((h > 23 ∨ m > 59 ∨ s > 59) → parseTimeString str = -1) ∧
    (h ≤ 23 → m ≤ 59 → s ≤ 59 →
      parseTimeString str = timeFromHMS (hourNormalize h p) m s ∧
      0 ≤ parseTimeString str ∧
      (¬ (p = some Period.PM ∧ 13 ≤ h) → parseTimeString str < 1) ∧
      ((p = some Period.PM ∧ 13 ≤ h) → 1 ≤ parseTimeString str)) ∧
    hourNormalize 12 (some Period.AM) = 0 ∧
    hourNormalize 12 (some Period.PM) = 12 ∧
    (∀ hh : Nat, hh ≠ 12 → hourNormalize hh (some Period.PM) = hh + 12) := by
  have htf : ∀ (hh mm ss : Nat),
      timeFromHMS hh mm ss = ((hh : Rat) + (mm : Rat) / 60 + (ss : Rat) / 3600) / 24 := by
    intro hh mm ss
    unfold timeFromHMS
    rw [divNat_eq, radd_eq, radd_eq, divNat_eq, divNat_eq]
    push_cast
    ring
  have hne : ¬ ((trimList str.data).isEmpty = true) := by
    intro hemp
    have hnil : trimList str.data = [] := List.isEmpty_iff.mp hemp
    have hpt : processedTime str = [] := by
      unfold processedTime upList
      rw [hnil]
      rfl
    rw [hpt] at hbare
    exact absurd hbare (by simp [matchBareTime])
  have hps : parseTimeString str
      = (if h > 23 ∨ m > 59 ∨ s > 59 then -1 else timeFromHMS (hourNormalize h p) m s) := by
    unfold parseTimeString
    rw [if_neg hne, hbare]
  refine ⟨?_, ?_, by decide, by decide, ?_⟩
  · intro hor
    rw [hps, if_pos hor]
  · intro h1 h2 h3
    have hcond : ¬ (h > 23 ∨ m > 59 ∨ s > 59) := by omega
    have hval : parseTimeString str = timeFromHMS (hourNormalize h p) m s := by
      rw [hps, if_neg hcond]
    have c2 : (m : Rat) ≤ 59 := by exact_mod_cast h2
    have c3 : (s : Rat) ≤ 59 := by exact_mod_cast h3
    refine ⟨hval, ?_, ?_, ?_⟩
    · rw [hval, htf]
      positivity
    · intro hnot
      have hle : hourNormalize h p ≤ 23 := by
        unfold hourNormalize
        split_ifs with ha hb
        · obtain ⟨ha1, ha2⟩ := ha
          have h13 : ¬ 13 ≤ h := fun hge => hnot ⟨ha1, hge⟩
          omega
        · omega
        · omega
      have c1 : ((hourNormalize h p : Nat) : Rat) ≤ 23 := by exact_mod_cast hle
      rw [hval, htf, div_lt_one (by norm_num)]
      linarith
    · intro hpm
      have heq : hourNormalize h p = h + 12 := by
        unfold hourNormalize
        rw [if_pos ⟨hpm.1, by omega⟩]
      have c1 : (25 : Rat) ≤ ((hourNormalize h p : Nat) : Rat) := by
        rw [heq]
        have : (13 : Nat) + 12 ≤ h + 12 := by omega
        exact_mod_cast (by omega : (25 : Nat) ≤ h + 12)
      rw [hval, htf, le_div_iff₀ (by norm_num : (0 : Rat) < 24)]
      have c4 : (0 : Rat) ≤ (m : Rat) := by positivity
      have c5 : (0 : Rat) ≤ (s : Rat) := by positivity
      linarith
  · intro hh hne12
    unfold hourNormalize
    rw [if_pos ⟨rfl, hne12⟩]

/-- Witness for C4 at the concrete input "9:30 AM". -/
theorem c4_amended_witness :
    matchBareTime (processedTime ("9:30 AM")) = some (9, 30, 0, some Period.AM) ∧
    parseTimeString ("9:30 AM") = timeFromHMS (hourNormalize 9 (some Period.AM)) 30 0 :=
  ⟨by decide,
    ((c4_amended ("9:30 AM") 9 30 0 (some Period.AM) (by decide)).2.1
      (by decide) (by decide) (by decide)).1⟩

/-- C2 counterexample: the fuzzy paste pipeline succeeds on a batch whose only
trade got hours 100 (> 24) straight from the unclamped direct Hours column,
and on another batch whose only trade got hours exactly 0 (a strictly positive
computed value, 0.004, rounded to 2 decimals). -/
theorem c2_counterexample :
    parsePasteFuzzy ("person 1,date,person 2,hours\nA,1/2/2024,B,100")
      = ParseResult.ok [⟨"A", "2024-01-02", 100, "B"⟩] (successMsg 1) ∧
    ¬ ((100 : Rat) ≤ 24) ∧
    parsePasteFuzzy ("person 1,date,person 2,hours\nA,1/2/2024,B,0.004")
      = ParseResult.ok [⟨"A", "2024-01-02", 0, "B"⟩] (successMsg 1) ∧
    ¬ ((0 : Rat) > 0) :=
  ⟨by decide, by decide, by decide, by decide⟩

/-- C2 amended: every accumulated Trade has nonnegative hours (the
pre-rounding value is strictly positive, but 2-decimal rounding can produce
exactly 0); the fixed-index pipelines, whose hours always come from the
clamped duration calculator, additionally keep hours ≤ 24, and the duration
calculator itself never exceeds 24 — the direct Hours fallback of the fuzzy
pipelines, however, is not clamped. -/
theorem c2_amended (text : String) (rows : List (List CellVal))
    (hrows : List (List (String × CellVal))) :
    (∀ t ∈ pasteFixedTrades text, 0 ≤ t.hours ∧ t.hours ≤ 24) ∧
    (∀ t ∈ gridFixedTrades rows, 0 ≤ t.hours ∧ t.hours ≤ 24) ∧
    (∀ t ∈ pasteFuzzyTrades text, 0 ≤ t.hours) ∧
    (∀ t ∈ gridFuzzyTrades hrows, 0 ≤ t.hours) ∧
    (∀ (tp : String → Rat) (s e : Option CellVal), calcHoursWith tp s e ≤ 24) :=
  ⟨fun t ht => pasteFixedTrades_hours text t ht,
   fun t ht => gridFixedTrades_hours rows t ht,
   fun t ht => pasteFuzzyTrades_hours text t ht,
   fun t ht => gridFuzzyTrades_hours hrows t ht,
   fun tp s e => calcHoursWith_le_24 tp s e⟩

/-- Witness for C2 on the batch that produced the 100-hour trade. -/
theorem c2_amended_witness :
    (⟨"A", "2024-01-02", 100, "B"⟩ : Trade)
        ∈ pasteFuzzyTrades ("person 1,date,person 2,hours\nA,1/2/2024,B,100") ∧
    0 ≤ (⟨"A", "2024-01-02", 100, "B"⟩ : Trade).hours :=
  ⟨by decide,
    (c2_amended ("person 1,date,person 2,hours\nA,1/2/2024,B,100") [] []).2.2.1 _ (by decide)⟩

/-- C6 counterexample: in fixed-index mode the scenario row carries its five
values at indices 0–4, but the resolver reads indices 4,5,6,7,10 — person1
reads "BOB", the date cell is missing, no row is accepted and the whole batch
fails instead of producing the claimed Trade. -/
theorem c6_counterexample :
    processGridFixed [[CellVal.str ("ALICE"), CellVal.str ("1/2/2024"),
        CellVal.str ("9:00 AM"), CellVal.str ("5:00 PM"), CellVal.str ("BOB")]]
      = ParseResult.err msgNoValidFixedGrid := by
  decide

/-- C6 amended: with the five values placed at the fixed column indices
(E=4, F=5, G=6, H=7, K=10) the single row produces exactly the Trade
ALICE/2024-01-02/8/BOB, and aggregation gives Alice 8/0/8 and Bob 0/8/−8. -/
theorem c6_amended :
    processGridFixed [[CellVal.str (""), CellVal.str (""), CellVal.str (""), CellVal.str (""),
        CellVal.str ("ALICE"), CellVal.str ("1/2/2024"), CellVal.str ("9:00 AM"),
        CellVal.str ("5:00 PM"), CellVal.str (""), CellVal.str (""), CellVal.str ("BOB")]]
      = ParseResult.ok [⟨"ALICE", "2024-01-02", 8, "BOB"⟩] (successMsg 1) ∧
    summaryData [⟨"ALICE", "2024-01-02", 8, "BOB"⟩]
      = [⟨"ALICE", 8, 0, 8⟩, ⟨"BOB", 0, 8, -8⟩] :=
  ⟨by decide, by decide⟩

/-- C7: every handler is all-or-nothing — a success carries exactly the
accumulated trade list and that list is nonempty; when zero rows are accepted
the handler never returns a success (it fails, with the NoValidRows message
once the input-shape guards are passed). -/
theorem c7_all_or_nothing (text : String) (rows : List (List CellVal))
    (hrows : List (List (String × CellVal))) :
    (∀ ts msg, parsePasteFixed text = ParseResult.ok ts msg →
      ts = pasteFixedTrades text ∧ ts ≠ []) ∧
    (pasteFixedTrades text = [] → ∀ ts msg, parsePasteFixed text ≠ ParseResult.ok ts msg) ∧
    (∀ ts msg, parsePasteFuzzy text = ParseResult.ok ts msg →
      ts = pasteFuzzyTrades text ∧ ts ≠ []) ∧
    (pasteFuzzyTrades text = [] → ∀ ts msg, parsePasteFuzzy text ≠ ParseResult.ok ts msg) ∧
    (∀ ts msg, processGridFixed rows = ParseResult.ok ts msg →
      ts = gridFixedTrades rows ∧ ts ≠ []) ∧
    (gridFixedTrades rows = [] → ∀ ts msg, processGridFixed rows ≠ ParseResult.ok ts msg) ∧
    (∀ ts msg, processGridFuzzy hrows = ParseResult.ok ts msg →
      ts = gridFuzzyTrades hrows ∧ ts ≠ []) ∧
    (gridFuzzyTrades hrows = [] → ∀ ts msg, processGridFuzzy hrows ≠ ParseResult.ok ts msg) := by
  refine ⟨?_, ?_, ?_, ?_, ?_, ?_, ?_, ?_⟩
  · intro ts msg hok
    unfold parsePasteFixed at hok
    split_ifs at hok <;>
      first
        | exact ParseResult.noConfusion hok
        | (cases hok; exact ⟨rfl, by assumption⟩)
  · intro hempty ts msg hok
    unfold parsePasteFixed at hok
    split_ifs at hok <;>
      first
        | exact ParseResult.noConfusion hok
        | exact absurd hempty (by assumption)
  · intro ts msg hok
    unfold parsePasteFuzzy at hok
    split_ifs at hok <;>
      first
        | exact ParseResult.noConfusion hok
        | (cases hok; exact ⟨rfl, by assumption⟩)
  · intro hempty ts msg hok
    unfold parsePasteFuzzy at hok
    split_ifs at hok <;>
      first
        | exact ParseResult.noConfusion hok
        | exact absurd hempty (by assumption)
  · intro ts msg hok
    unfold processGridFixed at hok
    split_ifs at hok <;>
      first
        | exact ParseResult.noConfusion hok
        | (cases hok; exact ⟨rfl, by assumption⟩)
  · intro hempty ts msg hok
    unfold processGridFixed at hok
    split_ifs at hok <;>
      first
        | exact ParseResult.noConfusion hok
        | exact absurd hempty (by assumption)
  · intro ts msg hok
    unfold processGridFuzzy at hok
    split_ifs at hok <;>
      first
        | exact ParseResult.noConfusion hok
        | (cases hok; exact ⟨rfl, by assumption⟩)
  · intro hempty ts msg hok
    unfold processGridFuzzy at hok
    split_ifs at hok <;>
      first
        | exact ParseResult.noConfusion hok
        | exact absurd hempty (by assumption)

/-- Witness for C7 on a concrete successful fixed-index paste batch. -/
theorem c7_all_or_nothing_witness :
    (pasteFixedTrades (",,,,A,1/2/2024,9:00 AM,5:00 PM,,,B")
        = [⟨"A", "2024-01-02", 8, "B"⟩]) ∧
    ([⟨"A", "2024-01-02", 8, "B"⟩] : List Trade)
        = pasteFixedTrades (",,,,A,1/2/2024,9:00 AM,5:00 PM,,,B") ∧
    ([⟨"A", "2024-01-02", 8, "B"⟩] : List Trade) ≠ [] :=
  ⟨by decide,
    (c7_all_or_nothing (",,,,A,1/2/2024,9:00 AM,5:00 PM,,,B") [] []).1
      [⟨"A", "2024-01-02", 8, "B"⟩] (successMsg 1) (by decide)⟩

/-- C8 counterexample: when only the second line contains a tab, the handlers
split every line on comma (the first line decides), while the claim's
any-line rule would make tab the delimiter; the second line then stays a
single cell instead of being split. -/
theorem c8_counterexample :
    pasteDelimiter ("a,b\nx\ty") = commaC ∧
    claimDelimiterAnyLine ("a,b\nx\ty") = tabC ∧
    pastedCellRows ("a,b\nx\ty") = [[("a"), ("b")], [("x\ty")]] ∧
    claimCellRowsAnyLine ("a,b\nx\ty") = [[("a,b")], [("x"), ("y")]] ∧
    pastedCellRows ("a,b\nx\ty") ≠ claimCellRowsAnyLine ("a,b\nx\ty") :=
  ⟨by decide, by decide, by decide, by decide, by decide⟩

/-- C8 amended: pasted text is split on line breaks and every line is split
with one delimiter — tab if the FIRST line contains a tab, else comma. -/
theorem c8_amended (text : String) :
    pasteDelimiter text = specDelimiterFirstLine text ∧
    pastedCellRows text = specCellRowsFirstLine text ∧
    (∀ lt : List Char, splitLineCells text lt
      = splitC (fun c => c = specDelimiterFirstLine text) lt) := by
  have hd : pasteDelimiter text = specDelimiterFirstLine text := rfl
  refine ⟨hd, ?_, ?_⟩
  · unfold pastedCellRows specCellRowsFirstLine splitLineCells
    rw [hd]
  · intro lt
    unfold splitLineCells
    rw [hd]

/-- C9: in the fuzzy upload handler, whenever the start- and end-time columns
resolve (here to the empty-string `defval` cells), the direct Hours column is
never consulted: with any positive numeric Hours cell the row still computes
0 hours and is discarded rather than falling back. -/
theorem c9_hours_shadowed (row : List (String × CellVal)) (q : Rat)
    (hst : findColumnValue row startTimeSyns = some (CellVal.str ""))
    (het : findColumnValue row endTimeSyns = some (CellVal.str ""))
    (hhr : findColumnValue row hoursSyns = some (CellVal.num q))
    (hq : 0 < q) :
    fuzzyGridRowTrade row = none := by
  unfold fuzzyGridRowTrade
  dsimp only
  rw [hst, het]
  have hc0 : calculateHoursFromTimesFz (some (CellVal.str "")) (some (CellVal.str "")) = 0 := by
    unfold calculateHoursFromTimesFz calcHoursWith
    rw [if_pos (by simp)]
  split_ifs with hp hg <;>
    first
      | simp [hc0]
      | simp at hg

/-- Witness for C9 on a concrete header-keyed row. -/
theorem c9_hours_shadowed_witness :
    fuzzyGridRowTrade [(("person 1"), CellVal.str ("A")),
      (("trade date"), CellVal.str ("1/2/2024")),
      (("start time"), CellVal.str ("")), (("end time"), CellVal.str ("")),
      (("hours"), CellVal.num 5), (("person 2"), CellVal.str ("B"))] = none :=
  c9_hours_shadowed _ 5 (by decide) (by decide) (by decide) (by decide)

end TradeTrack
